import Mathlib

/-
Verification of the gitmig migration engine (gitmig.py, gitmig_config.py).

The embedding below translates the scan / filter / copy / archive pipeline
of GitMigEngine into Lean definitions.  Paths are modelled as Lean strings
(logically lists of characters); the file system is abstracted by boolean
oracles telling, for each relative path, whether the destination already
exists and whether the per-file operations succeed, which mirrors the
per-file try/except structure of the Python code.
-/

/- ===================== String primitives ===================== -/

/-- Boolean prefix test on character lists (Python startswith). -/
def listLead : List Char → List Char → Bool
  | [], _ => true
  | _ :: _, [] => false
  | a :: as, b :: bs => (a == b) && listLead as bs

/-- Substring containment on character lists (Python "x in s"). -/
def containsSub (pat : List Char) : List Char → Bool
  | [] => listLead pat []
  | c :: cs => listLead pat (c :: cs) || containsSub pat cs

/-- Python s.startswith(p). -/
def strStartsWith (s p : String) : Bool := listLead p.data s.data

/-- Python s.endswith(p). -/
def strEndsWith (s p : String) : Bool := listLead p.data.reverse s.data.reverse

/-- Python "p in s" substring test. -/
def strContains (s p : String) : Bool := containsSub p.data s.data

/-- Two adjacent dots somewhere in the character list. -/
def hasDotDot : List Char → Bool
  | [] => false
  | [_] => false
  | a :: b :: cs => ((a == '.') && (b == '.')) || hasDotDot (b :: cs)

/-- Path separators recognized by the tool (POSIX and Windows). -/
def isSep (c : Char) : Bool := (c == '/') || (c == '\\')

/-- Split a character list into path components at separators. -/
def splitSeps : List Char → List (List Char)
  | [] => [[]]
  | c :: cs =>
    if isSep c then [] :: splitSeps cs
    else
      match splitSeps cs with
      | [] => [[c]]
      | h :: t => (c :: h) :: t

/-- A parent-directory traversal segment: some path component is "..". -/
def hasTraversalSegment (s : String) : Bool :=
  (splitSeps s.data).any (fun comp => comp == ['.', '.'])

/-- Replace every backslash by a forward slash (str.replace on one char). -/
def deBk (cs : List Char) : List Char :=
  cs.map (fun c => if c == '\\' then '/' else c)

/-- os.path.join for the POSIX rules used on relative archive paths. -/
def posixJoin (a b : String) : String :=
  if strStartsWith b "/" then b
  else if a == "" || strEndsWith a "/" then a ++ b
  else a ++ "/" ++ b

/- ===================== Glob matching (fnmatch) ===================== -/

/-- All suffixes of a character list, longest first. -/
def suffixes : List Char → List (List Char)
  | [] => [[]]
  | c :: cs => (c :: cs) :: suffixes cs

/-- Shell-style glob matching of a pattern against a whole name,
case-sensitive, supporting the star and question-mark wildcards; the star
matches any (possibly empty) run of characters, expressed by trying every
suffix of the remaining name.  (Character classes are not used by any
pattern of this repository.) -/
def globMatch : List Char → List Char → Bool
  | [], s => s.isEmpty
  | '*' :: ps, s => (suffixes s).any (fun t => globMatch ps t)
  | '?' :: ps, _ :: cs => globMatch ps cs
  | '?' :: _, [] => false
  | _ :: _, [] => false
  | p1 :: ps, c :: cs => (p1 == c) && globMatch ps cs

/-- fnmatch.fnmatch(name, pattern). -/
def fnmatch (name pat : String) : Bool := globMatch pat.data name.data

/- ===================== Configuration (gitmig_config.py) ===================== -/

/-- EXCLUDE_FILE_PATTERNS from gitmig_config.py. -/
def EXCLUDE_FILE_PATTERNS : List String :=
  ["*.log", "*.tmp", "*.temp", "*.bak", "*.swp", "*.pyc", "*.pyo",
   "*.class", "*.dll", "*.exe", "*.o", "*.so", "*.dylib"]

/-- PRESERVE_PATTERNS from gitmig_config.py. -/
def PRESERVE_PATTERNS : List String := [".env", ".env.*"]

/-- Engine configuration relevant to the scan and copy pipeline; field
defaults mirror the GitMigEngine constructor defaults. -/
structure Config where
  repoName : String := ""
  excludeFiles : List String := EXCLUDE_FILE_PATTERNS
  maxSize : Option Int := none
  skipExisting : Bool := false
  force : Bool := false
  quiet : Bool := false

/-- GitMigEngine._should_exclude_file. -/
def shouldExcludeFile (excludeFiles : List String) (filename : String) : Bool :=
  excludeFiles.any (fun pat => fnmatch filename pat)

/-- GitMigEngine._should_preserve. -/
def shouldPreserve (filename : String) : Bool :=
  PRESERVE_PATTERNS.any (fun pat => fnmatch filename pat)

/-- The size test of _scan_repo: "if self.max_size and file_size > self.max_size".
A max size of 0 is falsy in Python, so it disables the check. -/
def sizeExceeds (maxSize : Option Int) (fileSize : Nat) : Bool :=
  match maxSize with
  | none => false
  | some m => (m != 0) && ((fileSize : Int) > m)

/- ===================== Extension statistics ===================== -/

/-- os.path.splitext extension part: starts at the last dot, provided some
earlier character of the name is not a dot (leading dots belong to the root). -/
def splitextExt (f : String) : String :=
  let cs := f.data
  match ((List.range cs.length).filter (fun i => cs.getD i ' ' == '.')).getLast? with
  | none => ""
  | some i =>
      if (List.range i).any (fun j => !(cs.getD j ' ' == '.')) then
        String.mk (cs.drop i)
      else ""

/-- ASCII lowering of one character. -/
def lowerChar (c : Char) : Char :=
  if 'A' ≤ c && c ≤ 'Z' then Char.ofNat (c.toNat + 32) else c

/-- The key of the extension-statistics map:
os.path.splitext(f)[1].lower() or "(no ext)". -/
def extKey (f : String) : String :=
  let e := String.mk ((splitextExt f).data.map lowerChar)
  if e == "" then "(no ext)" else e

/-- One extension-statistics update: count plus one, bytes plus size. -/
def statAdd (stats : List (String × Nat × Nat)) (ext : String) (size : Nat) :
    List (String × Nat × Nat) :=
  match stats with
  | [] => [(ext, 1, size)]
  | (e, c, b) :: rest =>
      if e == ext then (e, c + 1, b + size) :: rest
      else (e, c, b) :: statAdd rest ext size

/- ===================== Tree scan (GitMigEngine._scan_repo) ===================== -/

/-- One file met by the walk of _scan_repo: its path relative to the
repository root, its bare name, whether os.path.islink holds, and the size
reported by os.path.getsize (0 when the stat fails, as in the source). -/
structure ScanFile where
  relPath : String
  name : String
  isLink : Bool
  size : Nat
deriving DecidableEq

/-- The accumulators touched by the per-file part of _scan_repo. -/
structure ScanState where
  filesToCopy : List (String × Nat) := []
  preservedFiles : List String := []
  symlinksSkipped : Nat := 0
  largeFilesSkipped : Nat := 0
  extStats : List (String × Nat × Nat) := []
deriving DecidableEq

/-- The per-file pipeline of _scan_repo: skip symlinks, skip files over the
size ceiling, then include preserved files unconditionally, otherwise include
when no exclusion file pattern matches; extension statistics are updated for
every file that reaches the inclusion decision, included or not. -/
def scanStep (cfg : Config) (st : ScanState) (f : ScanFile) : ScanState :=
  if f.isLink then
    { st with symlinksSkipped := st.symlinksSkipped + 1 }
  else if sizeExceeds cfg.maxSize f.size then
    { st with largeFilesSkipped := st.largeFilesSkipped + 1 }
  else if shouldPreserve f.name then
    { st with filesToCopy := st.filesToCopy ++ [(f.relPath, f.size)],
              preservedFiles := st.preservedFiles ++ [cfg.repoName ++ "/" ++ f.relPath],
              extStats := statAdd st.extStats (extKey f.name) f.size }
  else if !(shouldExcludeFile cfg.excludeFiles f.name) then
    { st with filesToCopy := st.filesToCopy ++ [(f.relPath, f.size)],
              extStats := statAdd st.extStats (extKey f.name) f.size }
  else
    { st with extStats := statAdd st.extStats (extKey f.name) f.size }

/-- _scan_repo over the files met by the walk, in walk order. -/
def scanRepo (cfg : Config) (files : List ScanFile) : ScanState :=
  files.foldl (scanStep cfg) {}

/- ===================== Archive mode (GitMigEngine._zip_repo) ===================== -/

/-- The path validation of _zip_repo:
".." in rel_path or rel_path.startswith(("/", "\x5c")). -/
def relPathRejected (rel : String) : Bool :=
  strContains rel ".." || strStartsWith rel "/" || strStartsWith rel "\\"

/-- The archive entry name of _zip_repo:
os.path.join(repo_name, rel_path) with every backslash replaced by a slash. -/
def arcName (repo rel : String) : String :=
  String.mk (deBk (posixJoin repo rel).data)

/-- What one repository archive produced: entries written in order, error
messages printed, and whether some write raised an exception; a raise
abandons the rest of the loop and is caught by the archive-level handler. -/
structure ZipResult where
  entries : List String := []
  errors : List String := []
  aborted : Bool := false
deriving DecidableEq

/-- The entry loop of _zip_repo: a rejected relative path is skipped with an
error message and the loop continues; an accepted path is written unless the
write raises, in which case the remaining candidates are never processed. -/
def zipLoop (repo : String) (writeOk : String → Bool) :
    List (String × Nat) → ZipResult
  | [] => {}
  | (rel, _) :: rest =>
    if relPathRejected rel then
      let r := zipLoop repo writeOk rest
      { r with errors := ("Skipping unsafe path: " ++ rel) :: r.errors }
    else if writeOk rel then
      let r := zipLoop repo writeOk rest
      { r with entries := arcName repo rel :: r.entries }
    else { entries := [], errors := [], aborted := true }

/-- The byte count _zip_repo returns: the archive file size normally, 0 when
the exception handler around the archive ran. -/
def zipBytes (r : ZipResult) (archiveSize : Nat) : Nat :=
  if r.aborted then 0 else archiveSize

/-- A well-formed repository directory name, as produced by the directory
listing of _find_repos: nonempty, no ".." inside, neither starting nor
ending with a separator. -/
def repoOk (repo : String) : Bool :=
  !(repo == "") && !strContains repo ".." && !strStartsWith repo "/" &&
    !strStartsWith repo "\\" && !strEndsWith repo "/"

/- ===================== Copy mode (GitMigEngine._copy_repo) ===================== -/

/-- Per-file oracles abstracting the destination file system and the
fallibility of the per-file operations (each per-file try block of the
source either succeeds or raises). -/
structure FsEnv where
  destExists : String → Bool := fun _ => false
  mkdirsOk : String → Bool := fun _ => true
  copyOk : String → Bool := fun _ => true
  zipWriteOk : String → Bool := fun _ => true
  zipSize : String → Nat := fun _ => 0

/-- Accumulators of one _copy_repo call. -/
structure CopyResult where
  bytes : Nat := 0
  copied : List String := []
  overwritten : Nat := 0
  skippedExisting : Nat := 0
  errors : List String := []
  warnings : List String := []
deriving DecidableEq

/-- Overwrite notice printed when neither force nor quiet holds. -/
def owWarn (rel : String) : String := "Overwriting: " ++ rel

/-- Per-file error message of _copy_repo. -/
def copyErr (rel : String) : String := "Warning: Could not copy " ++ rel

/-- One pass of the _copy_repo loop: create the directories (a failure is the
per-file exception), then for an existing destination either skip it under
skip-existing, or count the overwrite and warn unless force or quiet, then
copy; a failing copy is also the per-file exception, logged, leaving bytes
and the copied list untouched. -/
def copyFile (cfg : Config) (env : FsEnv) (r : CopyResult) (f : String × Nat) : CopyResult :=
  if !(env.mkdirsOk f.1) then
    { r with errors := r.errors ++ [copyErr f.1] }
  else if env.destExists f.1 && cfg.skipExisting then
    { r with skippedExisting := r.skippedExisting + 1 }
  else if env.destExists f.1 then
    let warn := if !cfg.force && !cfg.quiet then [owWarn f.1] else []
    if env.copyOk f.1 then
      { r with overwritten := r.overwritten + 1, warnings := r.warnings ++ warn,
               bytes := r.bytes + f.2, copied := r.copied ++ [f.1] }
    else
      { r with overwritten := r.overwritten + 1, warnings := r.warnings ++ warn,
               errors := r.errors ++ [copyErr f.1] }
  else if env.copyOk f.1 then
    { r with bytes := r.bytes + f.2, copied := r.copied ++ [f.1] }
  else
    { r with errors := r.errors ++ [copyErr f.1] }

/-- _copy_repo over the candidate list. -/
def copyRepo (cfg : Config) (env : FsEnv) (files : List (String × Nat)) : CopyResult :=
  files.foldl (copyFile cfg env) {}

/- ===================== Run orchestration (GitMigEngine.run, main) ===================== -/

/-- One repository of the source directory: its name and the files its walk
meets. -/
structure Repo where
  name : String
  files : List ScanFile

/-- Run-level accumulators of GitMigEngine.run, with the trace of paths
written at the destination (copied files, or the archive file per repo). -/
structure RunState where
  totalFilesCopied : Nat := 0
  totalBytesCopied : Nat := 0
  writes : List String := []

/-- One iteration of the repository loop of run: scan, then in dry-run mode
only accumulate the candidate byte total without touching the destination;
otherwise archive or copy, accumulating the returned bytes and recording
what was written; the candidate count is accumulated in every mode. -/
def runRepoStep (cfg : Config) (env : FsEnv) (dry useZip : Bool)
    (s : RunState) (repo : Repo) : RunState :=
  let cand := (scanRepo { cfg with repoName := repo.name } repo.files).filesToCopy
  let candBytes := (cand.map Prod.snd).sum
  if dry then
    { s with totalFilesCopied := s.totalFilesCopied + cand.length,
             totalBytesCopied := s.totalBytesCopied + candBytes }
  else if useZip then
    let r := zipLoop repo.name env.zipWriteOk cand
    { totalFilesCopied := s.totalFilesCopied + cand.length,
      totalBytesCopied := s.totalBytesCopied + zipBytes r (env.zipSize repo.name),
      writes := s.writes ++ [repo.name ++ ".zip"] }
  else
    let r := copyRepo cfg env cand
    { totalFilesCopied := s.totalFilesCopied + cand.length,
      totalBytesCopied := s.totalBytesCopied + r.bytes,
      writes := s.writes ++ r.copied }

/-- The repository loop of GitMigEngine.run. -/
def runRepos (cfg : Config) (env : FsEnv) (dry useZip : Bool) (repos : List Repo) : RunState :=
  repos.foldl (runRepoStep cfg env dry useZip) {}

/-- Destination creation in main: os.makedirs(dest_dir) runs only when not
in dry-run mode and the destination does not yet exist. -/
def destDirCreated (dry destAlready : Bool) : Bool := !dry && !destAlready

/- ===================== Size parsing (main, --max-size) ===================== -/

/-- Default whitespace stripped by Python str.strip(). -/
def pyIsSpace (c : Char) : Bool :=
  (c == ' ') || (c == '\t') || (c == '\n') || (c == '\r') ||
    (c == '\x0b') || (c == '\x0c')

/-- Python str.strip() on a character list. -/
def trimChars (cs : List Char) : List Char :=
  ((cs.dropWhile pyIsSpace).reverse.dropWhile pyIsSpace).reverse

/-- ASCII raising of one character (str.upper() on the size alphabet). -/
def upperChar (c : Char) : Char :=
  if 'a' ≤ c ∧ c ≤ 'z' then Char.ofNat (c.toNat - 32) else c

/-- All characters are decimal digits. -/
def allDigits (cs : List Char) : Bool := cs.all (fun c => c.isDigit)

/-- Value of a digit string. -/
def digitsToNat (cs : List Char) : Nat := cs.foldl (fun a c => 10 * a + (c.toNat - 48)) 0

/-- Python int() on a stripped string: an optional sign then a nonempty run
of digits, anything else raising ValueError (underscore separators are not
used by size strings and are not modelled). -/
def pyIntDigits (cs : List Char) : Option Int :=
  if !cs.isEmpty && allDigits cs then some (digitsToNat cs : Int) else none

/-- Python int() with its optional leading sign. -/
def pyIntVal (cs : List Char) : Option Int :=
  match cs with
  | '-' :: rest => (pyIntDigits rest).map (fun n => -n)
  | '+' :: rest => pyIntDigits rest
  | _ => pyIntDigits cs

/-- The unsigned decimal forms accepted by Python float() that size strings
can take: digits, digits point digits, digits point, point digits (exponent
notation, infinities and underscores are not modelled); the value is kept
exactly as a numerator over a power of ten: (n, e) stands for n / 10 ^ e. -/
def unsignedFloatParts (cs : List Char) : Option (Nat × Nat) :=
  let ip := cs.takeWhile (fun c => !(c == '.'))
  match cs.dropWhile (fun c => !(c == '.')) with
  | [] => if !ip.isEmpty && allDigits ip then some (digitsToNat ip, 0) else none
  | _ :: frac =>
      if allDigits ip && allDigits frac && (!ip.isEmpty || !frac.isEmpty) then
        some (digitsToNat ip * 10 ^ frac.length + digitsToNat frac, frac.length)
      else none

/-- Python float() with its optional leading sign, as an exact value
p.1 / 10 ^ p.2. -/
def pyFloatParts (cs : List Char) : Option (Int × Nat) :=
  match cs with
  | '-' :: rest => (unsignedFloatParts rest).map (fun p => (-(p.1 : Int), p.2))
  | '+' :: rest => (unsignedFloatParts rest).map (fun p => ((p.1 : Int), p.2))
  | _ => (unsignedFloatParts cs).map (fun p => ((p.1 : Int), p.2))

/-- int(x * mult) for the exact value x = p.1 / 10 ^ p.2: Python int()
truncates toward zero, which on the exact product is truncated division. -/
def scaledTrunc (p : Int × Nat) (mult : Nat) : Int :=
  Int.tdiv (p.1 * (mult : Int)) ((10 : Int) ^ p.2)

/-- The --max-size parsing of main: upper-case and strip the option string,
then on a G, M or K suffix parse the rest as a float and scale by the binary
multiple, otherwise parse the whole string as an integer; none models the
ValueError path that exits with the usage error. -/
def parseMaxSize (s : String) : Option Int :=
  let t := trimChars (s.data.map upperChar)
  match t.getLast? with
  | some 'G' => (pyFloatParts t.dropLast).map (fun p => scaledTrunc p 1073741824)
  | some 'M' => (pyFloatParts t.dropLast).map (fun p => scaledTrunc p 1048576)
  | some 'K' => (pyFloatParts t.dropLast).map (fun p => scaledTrunc p 1024)
  | _ => pyIntVal t

/- ===================== Destination-inside-source check (main) ===================== -/

/-- The validation of main: abs_dest.startswith(source_dir + os.sep) or
abs_dest == source_dir, with the POSIX separator. -/
def destInsideSource (src dst : String) : Bool :=
  strStartsWith dst (src ++ "/") || dst == src

/- ===================== Theorems ===================== -/

/- ===================== Scan lemmas ===================== -/

theorem scanStep_mem_filesToCopy {cfg : Config} {st : ScanState} {f : ScanFile}
    {x : String × Nat} (h : x ∈ st.filesToCopy) :
    x ∈ (scanStep cfg st f).filesToCopy := by
  unfold scanStep
  split_ifs <;> simp_all [List.mem_append]

theorem scanFold_mem_filesToCopy {cfg : Config} {x : String × Nat} :
    ∀ (files : List ScanFile) (st : ScanState), x ∈ st.filesToCopy →
      x ∈ (files.foldl (scanStep cfg) st).filesToCopy := by
  intro files
  induction files with
  | nil => intro st h; simpa using h
  | cons f fs ih => intro st h; exact ih _ (scanStep_mem_filesToCopy h)

theorem scanStep_preserved_mem {cfg : Config} {st : ScanState} {f : ScanFile}
    (hl : f.isLink = false) (hs : sizeExceeds cfg.maxSize f.size = false)
    (hp : shouldPreserve f.name = true) :
    (f.relPath, f.size) ∈ (scanStep cfg st f).filesToCopy := by
  unfold scanStep
  simp [hl, hs, hp]

theorem preserved_mem_scanFold {cfg : Config} {f : ScanFile}
    (hl : f.isLink = false) (hs : sizeExceeds cfg.maxSize f.size = false)
    (hp : shouldPreserve f.name = true) :
    ∀ (files : List ScanFile) (st : ScanState), f ∈ files →
      (f.relPath, f.size) ∈ (files.foldl (scanStep cfg) st).filesToCopy := by
  intro files
  induction files with
  | nil => intro st h; cases h
  | cons g gs ih =>
      intro st h
      rcases List.mem_cons.mp h with h1 | h2
      · subst h1
        exact scanFold_mem_filesToCopy gs _ (scanStep_preserved_mem hl hs hp)
      · exact ih _ h2

/-- C1 (amended): a file encountered by the scan that is not a symbolic link
and is not skipped by the size ceiling is always in the candidate list when
its name matches a preservation glob, regardless of whether it also matches
an exclusion file pattern. -/
theorem C1_theorem (cfg : Config) (files : List ScanFile) (f : ScanFile)
    (hmem : f ∈ files) (hlink : f.isLink = false)
    (hsize : sizeExceeds cfg.maxSize f.size = false)
    (hpres : shouldPreserve f.name = true) :
    (f.relPath, f.size) ∈ (scanRepo cfg files).filesToCopy :=
  preserved_mem_scanFold hlink hsize hpres files {} hmem

/-- C1 witness: a plain .env file of size 3 is preserved into the candidate
list by a scan with the default configuration. -/
theorem C1_witness :
    (⟨".env", ".env", false, 3⟩ : ScanFile) ∈ [(⟨".env", ".env", false, 3⟩ : ScanFile)] ∧
    (".env", 3) ∈ (scanRepo {} [⟨".env", ".env", false, 3⟩]).filesToCopy :=
  ⟨by decide,
    C1_theorem {} [⟨".env", ".env", false, 3⟩] ⟨".env", ".env", false, 3⟩
      (by decide) rfl rfl (by decide)⟩

/-- C1 fails as stated: with a size ceiling of 10 bytes, a non-symlink file
named .env of size 11 matches a preservation glob yet the candidate list of
the scan is empty, because the size check runs before the preservation
check. -/
theorem C1_cex :
    shouldPreserve ".env" = true ∧
    (⟨".env", ".env", false, 11⟩ : ScanFile) ∈ [(⟨".env", ".env", false, 11⟩ : ScanFile)] ∧
    (scanRepo { maxSize := some 10 } [⟨".env", ".env", false, 11⟩]).filesToCopy = [] :=
  ⟨by decide, by decide, by decide⟩

/-- C3 (amended): with a configured ceiling of N bytes and N nonzero, a
non-symlink file of size strictly over N is left out of the candidate list
and bumps the oversized counter by one; a file of size exactly N is never
counted oversized and is included subject to the other inclusion rules.
(A configured ceiling of 0 is falsy in the source and disables the check.) -/
theorem C3_theorem (cfg : Config) (st : ScanState) (f : ScanFile) (m : Int)
    (hm : cfg.maxSize = some m) (hlink : f.isLink = false) :
    (m ≠ 0 → (f.size : Int) > m →
      (scanStep cfg st f).largeFilesSkipped = st.largeFilesSkipped + 1 ∧
      (scanStep cfg st f).filesToCopy = st.filesToCopy) ∧
    ((f.size : Int) = m →
      (scanStep cfg st f).largeFilesSkipped = st.largeFilesSkipped ∧
      ((shouldPreserve f.name = true ∨ shouldExcludeFile cfg.excludeFiles f.name = false) →
        (f.relPath, f.size) ∈ (scanStep cfg st f).filesToCopy)) := by
  constructor
  · intro hne hgt
    have hex : sizeExceeds cfg.maxSize f.size = true := by
      simp [sizeExceeds, hm, hne, hgt]
    unfold scanStep
    simp [hlink, hex]
  · intro heq
    have hex : sizeExceeds cfg.maxSize f.size = false := by
      simp [sizeExceeds, hm, heq]
    refine ⟨?_, ?_⟩
    · unfold scanStep
      simp only [hlink, hex, Bool.false_eq_true, if_false]
      split_ifs <;> rfl
    · intro hinc
      unfold scanStep
      rcases hinc with hp | hnx
      · simp [hlink, hex, hp]
      · simp [hlink, hex, hnx]
        split_ifs <;> simp

/-- C3 witness: ceiling 10, a non-symlink file of size 11 is skipped as
oversized and contributes no candidate. -/
theorem C3_witness :
    (scanStep { maxSize := some 10 } {} ⟨"big.bin", "big.bin", false, 11⟩).largeFilesSkipped = 0 + 1 ∧
    (scanStep { maxSize := some 10 } {} ⟨"big.bin", "big.bin", false, 11⟩).filesToCopy = [] :=
  (C3_theorem { maxSize := some 10 } {} ⟨"big.bin", "big.bin", false, 11⟩ 10 rfl rfl).1
    (by decide) (by decide)

/-- C3 fails as stated: a configured ceiling of 0 bytes does not exclude a
file of size 5 (strictly greater than 0) and the oversized counter stays 0,
because the source guards the size check with the truthiness of the ceiling. -/
theorem C3_cex :
    ((5 : Nat) : Int) > 0 ∧
    (scanRepo { maxSize := some 0 } [⟨"a.txt", "a.txt", false, 5⟩]).filesToCopy = [("a.txt", 5)] ∧
    (scanRepo { maxSize := some 0 } [⟨"a.txt", "a.txt", false, 5⟩]).largeFilesSkipped = 0 :=
  ⟨by decide, by decide, by decide⟩

/-- C9: the extension statistics are untouched for symlinked files and for
files skipped by the size ceiling, while a file excluded only by a file-name
exclusion pattern still updates the statistics (one more file, its bytes
added) even though it contributes no candidate. -/
theorem C9_theorem (cfg : Config) (st : ScanState) (f : ScanFile) :
    (f.isLink = true → (scanStep cfg st f).extStats = st.extStats) ∧
    (f.isLink = false → sizeExceeds cfg.maxSize f.size = true →
      (scanStep cfg st f).extStats = st.extStats) ∧
    (f.isLink = false → sizeExceeds cfg.maxSize f.size = false →
      shouldPreserve f.name = false → shouldExcludeFile cfg.excludeFiles f.name = true →
      (scanStep cfg st f).extStats = statAdd st.extStats (extKey f.name) f.size ∧
      (scanStep cfg st f).filesToCopy = st.filesToCopy) := by
  refine ⟨?_, ?_, ?_⟩
  · intro h; unfold scanStep; simp [h]
  · intro h hx; unfold scanStep; simp [h, hx]
  · intro h hx hp he; unfold scanStep; simp [h, hx, hp, he]

/-- C9 witness: a plain x.log file (excluded by pattern) updates the
statistics yet yields no candidate. -/
theorem C9_witness :
    (scanStep {} {} ⟨"x.log", "x.log", false, 7⟩).extStats = statAdd [] (extKey "x.log") 7 ∧
    (scanStep {} {} ⟨"x.log", "x.log", false, 7⟩).filesToCopy = [] :=
  (C9_theorem {} {} ⟨"x.log", "x.log", false, 7⟩).2.2 rfl rfl (by decide) (by decide)

/- ===================== Character-list lemmas ===================== -/

theorem beqComm (a b : Char) : (a == b) = (b == a) := by
  by_cases h : a = b
  · simp [h]
  · simp [h, Ne.symm h]

theorem containsSub_dotdot (cs : List Char) :
    containsSub ['.', '.'] cs = hasDotDot cs := by
  induction cs with
  | nil => rfl
  | cons c cs ih =>
      cases cs with
      | nil => simp [containsSub, listLead, hasDotDot]
      | cons d ds =>
          have hl : listLead ['.', '.'] (c :: d :: ds) = ((c == '.') && (d == '.')) := by
            simp only [listLead, Bool.and_true]
            rw [beqComm '.' c, beqComm '.' d]
          calc containsSub ['.', '.'] (c :: d :: ds)
              = (listLead ['.', '.'] (c :: d :: ds) || containsSub ['.', '.'] (d :: ds)) := rfl
            _ = (((c == '.') && (d == '.')) || hasDotDot (d :: ds)) := by rw [hl, ih]
            _ = hasDotDot (c :: d :: ds) := rfl

theorem hasDotDot_cons_of {cs : List Char} (c : Char) (h : hasDotDot cs = true) :
    hasDotDot (c :: cs) = true := by
  cases cs with
  | nil => simp [hasDotDot] at h
  | cons d ds => simp [hasDotDot, h]

theorem hasDotDot_cons_sep {c : Char} (hc : (c == '.') = false) (b : List Char) :
    hasDotDot (c :: b) = hasDotDot b := by
  cases b with
  | nil => rfl
  | cons d ds => simp [hasDotDot, hc]

theorem hasDotDot_append_sep {c : Char} (hc : (c == '.') = false) (b : List Char) :
    ∀ a : List Char, hasDotDot (a ++ c :: b) = (hasDotDot a || hasDotDot b) := by
  intro a
  induction a with
  | nil => simp [hasDotDot, hasDotDot_cons_sep hc]
  | cons x as ih =>
      cases as with
      | nil =>
          simp only [List.cons_append, List.nil_append, hasDotDot, hc, Bool.and_false,
            Bool.false_or, hasDotDot_cons_sep hc]
      | cons y as' =>
          calc hasDotDot ((x :: y :: as') ++ c :: b)
              = (((x == '.') && (y == '.')) || hasDotDot ((y :: as') ++ c :: b)) := rfl
            _ = (((x == '.') && (y == '.')) || (hasDotDot (y :: as') || hasDotDot b)) := by
                  rw [ih]
            _ = ((((x == '.') && (y == '.')) || hasDotDot (y :: as')) || hasDotDot b) := by
                  rw [Bool.or_assoc]
            _ = (hasDotDot (x :: y :: as') || hasDotDot b) := rfl

theorem hasDotDot_deBk : ∀ cs : List Char, hasDotDot (deBk cs) = hasDotDot cs := by
  intro cs
  have hfix : ∀ x : Char, ((if x == '\\' then '/' else x) == '.') = (x == '.') := by
    intro x
    by_cases h : x = '\\' <;> simp [h]
  induction cs with
  | nil => rfl
  | cons x as ih =>
      cases as with
      | nil => simp [deBk, hasDotDot]
      | cons y as' =>
          simp only [deBk, List.map_cons, hasDotDot] at *
          rw [hfix x, hfix y, ih]

theorem splitSeps_ne_nil : ∀ cs : List Char, splitSeps cs ≠ [] := by
  intro cs
  cases cs with
  | nil => simp [splitSeps]
  | cons c cs =>
      simp only [splitSeps]
      split
      · simp
      · split <;> simp

theorem splitSeps_head_lead : ∀ (cs h : List Char) (t : List (List Char)),
    splitSeps cs = h :: t → listLead h cs = true := by
  intro cs
  induction cs with
  | nil =>
      intro h t he
      simp only [splitSeps, List.cons.injEq] at he
      rw [← he.1]
      rfl
  | cons c cs ih =>
      intro h t he
      by_cases hs : isSep c = true
      · simp only [splitSeps, hs, if_true, List.cons.injEq] at he
        rw [← he.1]
        rfl
      · rcases hsp : splitSeps cs with _ | ⟨h', t'⟩
        · exact absurd hsp (splitSeps_ne_nil cs)
        · have hspc : splitSeps (c :: cs) = (c :: h') :: t' := by
            simp only [splitSeps, hsp]
            rw [if_neg hs]
          rw [hspc, List.cons.injEq] at he
          rw [← he.1]
          simp only [listLead, beq_self_eq_true, Bool.true_and]
          exact ih h' t' hsp

theorem lead_of_mem_splitSeps : ∀ (cs comp : List Char),
    comp ∈ splitSeps cs → comp = ['.', '.'] → hasDotDot cs = true := by
  intro cs
  induction cs with
  | nil =>
      intro comp hm he
      simp only [splitSeps, List.mem_singleton] at hm
      rw [hm] at he
      cases he
  | cons c cs ih =>
      intro comp hm he
      by_cases hs : isSep c = true
      · simp only [splitSeps, hs, if_true, List.mem_cons] at hm
        rcases hm with h1 | h2
        · rw [h1] at he; cases he
        · exact hasDotDot_cons_of c (ih comp h2 he)
      · rcases hsp : splitSeps cs with _ | ⟨h', t'⟩
        · exact absurd hsp (splitSeps_ne_nil cs)
        · have hspc : splitSeps (c :: cs) = (c :: h') :: t' := by
            simp only [splitSeps, hsp]
            rw [if_neg hs]
          rw [hspc, List.mem_cons] at hm
          rcases hm with h1 | h2
          · rw [he] at h1
            have hc : c = '.' := (List.cons.inj h1.symm).1
            have hh : h' = ['.'] := (List.cons.inj h1.symm).2
            have hlead : listLead h' cs = true := splitSeps_head_lead cs h' t' hsp
            rw [hh] at hlead
            cases cs with
            | nil => cases hlead
            | cons d ds =>
                simp only [listLead, Bool.and_true] at hlead
                have hd : d = '.' := by simpa [beqComm] using hlead
                rw [hc, hd]
                simp [hasDotDot]
          · have hmem : comp ∈ splitSeps cs := by
              rw [hsp]; exact List.mem_cons_of_mem _ h2
            exact hasDotDot_cons_of c (ih comp hmem he)

theorem traversal_imp_contains {s : String} (h : hasTraversalSegment s = true) :
    strContains s ".." = true := by
  unfold hasTraversalSegment at h
  rw [List.any_eq_true] at h
  obtain ⟨comp, hm, hc⟩ := h
  have he : comp = ['.', '.'] := by simpa using hc
  have hd : hasDotDot s.data = true := lead_of_mem_splitSeps s.data comp hm he
  show containsSub (".." : String).data s.data = true
  have hdd : (".." : String).data = ['.', '.'] := rfl
  rw [hdd, containsSub_dotdot]
  exact hd

/- ===================== Archive entry safety ===================== -/

theorem posixJoin_std {repo rel : String} (hrel : strStartsWith rel "/" = false)
    (h1 : (repo == "") = false) (h2 : strEndsWith repo "/" = false) :
    posixJoin repo rel = repo ++ "/" ++ rel := by
  simp [posixJoin, hrel, h1, h2]

theorem arcName_data {repo rel : String} (hrel : strStartsWith rel "/" = false)
    (h1 : (repo == "") = false) (h2 : strEndsWith repo "/" = false) :
    (arcName repo rel).data = deBk repo.data ++ '/' :: deBk rel.data := by
  unfold arcName
  rw [posixJoin_std hrel h1 h2]
  show deBk ((repo ++ "/" ++ rel).data) = _
  rw [String.data_append, String.data_append]
  simp [deBk]

theorem strContains_dotdot_eq (s : String) :
    strContains s ".." = hasDotDot s.data := by
  show containsSub (".." : String).data s.data = _
  have hdd : (".." : String).data = ['.', '.'] := rfl
  rw [hdd, containsSub_dotdot]

theorem repoOk_parts {repo : String} (h : repoOk repo = true) :
    (repo == "") = false ∧ strContains repo ".." = false ∧
    strStartsWith repo "/" = false ∧ strStartsWith repo "\\" = false ∧
    strEndsWith repo "/" = false := by
  simp only [repoOk, Bool.and_eq_true, Bool.not_eq_true'] at h
  exact ⟨h.1.1.1.1, h.1.1.1.2, h.1.1.2, h.1.2, h.2⟩

theorem relOk_parts {rel : String} (h : relPathRejected rel = false) :
    strContains rel ".." = false ∧ strStartsWith rel "/" = false ∧
    strStartsWith rel "\\" = false := by
  simp only [relPathRejected, Bool.or_eq_false_iff] at h
  exact ⟨h.1.1, h.1.2, h.2⟩

theorem arcName_noDotDot {repo rel : String} (hrepo : repoOk repo = true)
    (hrel : relPathRejected rel = false) :
    hasDotDot (arcName repo rel).data = false := by
  obtain ⟨hne, hdd, hs1, hs2, hend⟩ := repoOk_parts hrepo
  obtain ⟨rdd, rs1, rs2⟩ := relOk_parts hrel
  rw [arcName_data rs1 hne hend,
    hasDotDot_append_sep (by decide) (deBk rel.data) (deBk repo.data),
    hasDotDot_deBk, hasDotDot_deBk, ← strContains_dotdot_eq, ← strContains_dotdot_eq,
    hdd, rdd]
  rfl

theorem arcName_safe {repo rel : String} (hrepo : repoOk repo = true)
    (hrel : relPathRejected rel = false) :
    hasTraversalSegment (arcName repo rel) = false ∧
    strStartsWith (arcName repo rel) "/" = false ∧
    strStartsWith (arcName repo rel) "\\" = false := by
  obtain ⟨hne, hdd, hs1, hs2, hend⟩ := repoOk_parts hrepo
  obtain ⟨rdd, rs1, rs2⟩ := relOk_parts hrel
  have hnd : hasDotDot (arcName repo rel).data = false := arcName_noDotDot hrepo hrel
  have harc : (arcName repo rel).data = deBk repo.data ++ '/' :: deBk rel.data :=
    arcName_data rs1 hne hend
  have hdata : repo.data ≠ [] := by
    intro h0
    have hre : repo = "" := String.ext (h0.trans rfl)
    rw [hre] at hne
    simp at hne
  refine ⟨?_, ?_, ?_⟩
  · cases htr : hasTraversalSegment (arcName repo rel) with
    | false => rfl
    | true =>
        have hct := traversal_imp_contains htr
        rw [strContains_dotdot_eq, hnd] at hct
        cases hct
  · rcases hD : repo.data with _ | ⟨r0, rr⟩
    · exact absurd hD hdata
    · have hr0 : ('/' == r0) = false := by
        have h := hs1
        unfold strStartsWith at h
        rw [show ("/" : String).data = ['/'] from rfl, hD] at h
        simpa [listLead] using h
      have hr0' : ('\\' == r0) = false := by
        have h := hs2
        unfold strStartsWith at h
        rw [show ("\\" : String).data = ['\\'] from rfl, hD] at h
        simpa [listLead] using h
      have hf : (if r0 == '\\' then '/' else r0) = r0 := by
        rw [if_neg]
        rw [beqComm r0 '\\', hr0']
        simp
      unfold strStartsWith
      rw [show ("/" : String).data = ['/'] from rfl, harc, hD]
      simp only [deBk, List.map_cons, List.cons_append, listLead, Bool.and_true]
      rw [hf, hr0]
  · rcases hD : repo.data with _ | ⟨r0, rr⟩
    · exact absurd hD hdata
    · have hr0' : ('\\' == r0) = false := by
        have h := hs2
        unfold strStartsWith at h
        rw [show ("\\" : String).data = ['\\'] from rfl, hD] at h
        simpa [listLead] using h
      have hf : (if r0 == '\\' then '/' else r0) = r0 := by
        rw [if_neg]
        rw [beqComm r0 '\\', hr0']
        simp
      unfold strStartsWith
      rw [show ("\\" : String).data = ['\\'] from rfl, harc, hD]
      simp only [deBk, List.map_cons, List.cons_append, listLead, Bool.and_true]
      rw [hf, hr0']

theorem arcName_dotdot {repo rel : String} (hrepo : repoOk repo = true)
    (hdd : strContains rel ".." = true) :
    hasDotDot (arcName repo rel).data = true := by
  obtain ⟨hne, hrdd, hs1, hs2, hend⟩ := repoOk_parts hrepo
  have hreldd : hasDotDot rel.data = true := by
    rw [← strContains_dotdot_eq]; exact hdd
  cases hsw : strStartsWith rel "/" with
  | true =>
      have hj : posixJoin repo rel = rel := by simp [posixJoin, hsw]
      unfold arcName
      rw [hj]
      show hasDotDot (deBk rel.data) = true
      rw [hasDotDot_deBk]
      exact hreldd
  | false =>
      rw [arcName_data hsw hne hend,
        hasDotDot_append_sep (by decide) (deBk rel.data) (deBk repo.data),
        hasDotDot_deBk, hasDotDot_deBk, hreldd, Bool.or_true]

theorem zipLoop_entries_from {repo : String} {writeOk : String → Bool} :
    ∀ (files : List (String × Nat)) (e : String),
      e ∈ (zipLoop repo writeOk files).entries →
      ∃ rel, relPathRejected rel = false ∧ e = arcName repo rel := by
  intro files
  induction files with
  | nil => intro e he; simp [zipLoop] at he
  | cons f fs ih =>
      intro e he
      obtain ⟨rel, sz⟩ := f
      by_cases hrj : relPathRejected rel = true
      · have hz : (zipLoop repo writeOk ((rel, sz) :: fs)).entries
            = (zipLoop repo writeOk fs).entries := by
          simp [zipLoop, hrj]
        rw [hz] at he
        exact ih e he
      · have hrj' : relPathRejected rel = false := Bool.not_eq_true _ ▸ eq_false_of_ne_true hrj
        cases hw : writeOk rel with
        | true =>
            have hz : (zipLoop repo writeOk ((rel, sz) :: fs)).entries
                = arcName repo rel :: (zipLoop repo writeOk fs).entries := by
              simp [zipLoop, hrj', hw]
            rw [hz] at he
            rcases List.mem_cons.mp he with h1 | h2
            · exact ⟨rel, hrj', h1⟩
            · exact ih e h2
        | false =>
            have hz : (zipLoop repo writeOk ((rel, sz) :: fs)).entries = [] := by
              simp [zipLoop, hrj', hw]
            rw [hz] at he
            cases he

/-- C2: the entry validation of _zip_repo rejects every relative path with a
parent-directory traversal segment or a leading separator, and consequently
no entry written into a repository archive contains a traversal segment or
begins with a separator (the repository name itself being a well-formed
directory-listing name). -/
theorem C2_theorem (repo : String) (writeOk : String → Bool)
    (files : List (String × Nat)) (rel : String)
    (hrepo : repoOk repo = true)
    (hbad : hasTraversalSegment rel = true ∨ strStartsWith rel "/" = true ∨
      strStartsWith rel "\\" = true) :
    relPathRejected rel = true ∧
    ∀ e ∈ (zipLoop repo writeOk files).entries,
      hasTraversalSegment e = false ∧ strStartsWith e "/" = false ∧
      strStartsWith e "\\" = false := by
  constructor
  · rcases hbad with h | h | h
    · have hc := traversal_imp_contains h
      simp [relPathRejected, hc]
    · simp [relPathRejected, h]
    · simp [relPathRejected, h]
  · intro e he
    obtain ⟨r, hr, he'⟩ := zipLoop_entries_from files e he
    rw [he']
    exact arcName_safe hrepo hr

/-- C2 witness: the traversal path "../x" is rejected and every entry of a
concrete archive run is free of traversal segments and leading separators. -/
theorem C2_witness :
    relPathRejected "../x" = true ∧
    ∀ e ∈ (zipLoop "repo" (fun _ => true) [("../x", 1), ("ok.txt", 2)]).entries,
      hasTraversalSegment e = false ∧ strStartsWith e "/" = false ∧
      strStartsWith e "\\" = false :=
  C2_theorem "repo" (fun _ => true) [("../x", 1), ("ok.txt", 2)] "../x"
    (by decide) (Or.inl (by decide))

/-- C8: the validation of _zip_repo tests for ".." as a substring, so any
candidate path containing two adjacent dots anywhere is rejected and its
entry name never occurs in the archive; in particular "a..b.txt", an
ordinary name without any traversal segment, is also skipped. -/
theorem C8_theorem (repo : String) (writeOk : String → Bool)
    (files : List (String × Nat)) (rel : String)
    (hrepo : repoOk repo = true) (hdd : strContains rel ".." = true) :
    relPathRejected rel = true ∧
    arcName repo rel ∉ (zipLoop repo writeOk files).entries ∧
    (strContains "a..b.txt" ".." = true ∧ hasTraversalSegment "a..b.txt" = false) := by
  refine ⟨by simp [relPathRejected, hdd], ?_, by decide, by decide⟩
  intro hmem
  obtain ⟨r, hr, he⟩ := zipLoop_entries_from files _ hmem
  have h1 : hasDotDot (arcName repo rel).data = true := arcName_dotdot hrepo hdd
  have h2 : hasDotDot (arcName repo r).data = false := arcName_noDotDot hrepo hr
  rw [he, h2] at h1
  cases h1

/-- C8 witness: archiving a repository whose only candidate is "a..b.txt"
writes no entry for it. -/
theorem C8_witness :
    relPathRejected "a..b.txt" = true ∧
    arcName "repo" "a..b.txt" ∉ (zipLoop "repo" (fun _ => true) [("a..b.txt", 4)]).entries ∧
    (strContains "a..b.txt" ".." = true ∧ hasTraversalSegment "a..b.txt" = false) :=
  C8_theorem "repo" (fun _ => true) [("a..b.txt", 4)] "a..b.txt" (by decide) (by decide)

/- ===================== Copy lemmas ===================== -/

theorem copyFile_bytes (cfg : Config) (env : FsEnv) (r : CopyResult) (f : String × Nat) :
    (copyFile cfg env r f).bytes = r.bytes + (copyFile cfg env {} f).bytes := by
  unfold copyFile
  split_ifs <;> simp

theorem copyFile_copied (cfg : Config) (env : FsEnv) (r : CopyResult) (f : String × Nat) :
    (copyFile cfg env r f).copied = r.copied ++ (copyFile cfg env {} f).copied := by
  unfold copyFile
  split_ifs <;> simp

theorem copyFile_errors (cfg : Config) (env : FsEnv) (r : CopyResult) (f : String × Nat) :
    (copyFile cfg env r f).errors = r.errors ++ (copyFile cfg env {} f).errors := by
  unfold copyFile
  split_ifs <;> simp

theorem copyFold_bytes (cfg : Config) (env : FsEnv) :
    ∀ (fs : List (String × Nat)) (r : CopyResult),
      (List.foldl (copyFile cfg env) r fs).bytes = r.bytes + (copyRepo cfg env fs).bytes := by
  intro fs
  induction fs with
  | nil => intro r; simp [copyRepo]
  | cons f fs ih =>
      intro r
      show (List.foldl (copyFile cfg env) (copyFile cfg env r f) fs).bytes = _
      rw [ih (copyFile cfg env r f), copyFile_bytes cfg env r f]
      have h2 : (copyRepo cfg env (f :: fs)).bytes
          = (copyFile cfg env {} f).bytes + (copyRepo cfg env fs).bytes := by
        show (List.foldl (copyFile cfg env) (copyFile cfg env {} f) fs).bytes = _
        rw [ih (copyFile cfg env {} f)]
      rw [h2]
      omega

theorem copyFold_copied (cfg : Config) (env : FsEnv) :
    ∀ (fs : List (String × Nat)) (r : CopyResult),
      (List.foldl (copyFile cfg env) r fs).copied = r.copied ++ (copyRepo cfg env fs).copied := by
  intro fs
  induction fs with
  | nil => intro r; simp [copyRepo]
  | cons f fs ih =>
      intro r
      show (List.foldl (copyFile cfg env) (copyFile cfg env r f) fs).copied = _
      rw [ih (copyFile cfg env r f), copyFile_copied cfg env r f]
      have h2 : (copyRepo cfg env (f :: fs)).copied
          = (copyFile cfg env {} f).copied ++ (copyRepo cfg env fs).copied := by
        show (List.foldl (copyFile cfg env) (copyFile cfg env {} f) fs).copied = _
        rw [ih (copyFile cfg env {} f)]
      rw [h2, List.append_assoc]

theorem copyFold_errors (cfg : Config) (env : FsEnv) :
    ∀ (fs : List (String × Nat)) (r : CopyResult),
      (List.foldl (copyFile cfg env) r fs).errors = r.errors ++ (copyRepo cfg env fs).errors := by
  intro fs
  induction fs with
  | nil => intro r; simp [copyRepo]
  | cons f fs ih =>
      intro r
      show (List.foldl (copyFile cfg env) (copyFile cfg env r f) fs).errors = _
      rw [ih (copyFile cfg env r f), copyFile_errors cfg env r f]
      have h2 : (copyRepo cfg env (f :: fs)).errors
          = (copyFile cfg env {} f).errors ++ (copyRepo cfg env fs).errors := by
        show (List.foldl (copyFile cfg env) (copyFile cfg env {} f) fs).errors = _
        rw [ih (copyFile cfg env {} f)]
      rw [h2, List.append_assoc]

theorem copyFile_fail (cfg : Config) (env : FsEnv) (rel : String) (size : Nat)
    (hfail : env.mkdirsOk rel = false ∨ env.copyOk rel = false)
    (hns : (env.destExists rel && cfg.skipExisting) = false) :
    (copyFile cfg env {} (rel, size)).bytes = 0 ∧
    (copyFile cfg env {} (rel, size)).copied = [] ∧
    copyErr rel ∈ (copyFile cfg env {} (rel, size)).errors := by
  rcases hfail with h | h <;> unfold copyFile <;> split_ifs <;> simp_all

theorem copyRepo_append_bytes (cfg : Config) (env : FsEnv) (xs ys : List (String × Nat)) :
    (copyRepo cfg env (xs ++ ys)).bytes
      = (copyRepo cfg env xs).bytes + (copyRepo cfg env ys).bytes := by
  show (List.foldl (copyFile cfg env) {} (xs ++ ys)).bytes = _
  rw [List.foldl_append, copyFold_bytes]
  rfl

theorem copyRepo_append_copied (cfg : Config) (env : FsEnv) (xs ys : List (String × Nat)) :
    (copyRepo cfg env (xs ++ ys)).copied
      = (copyRepo cfg env xs).copied ++ (copyRepo cfg env ys).copied := by
  show (List.foldl (copyFile cfg env) {} (xs ++ ys)).copied = _
  rw [List.foldl_append, copyFold_copied]
  rfl

theorem copyRepo_append_errors (cfg : Config) (env : FsEnv) (xs ys : List (String × Nat)) :
    (copyRepo cfg env (xs ++ ys)).errors
      = (copyRepo cfg env xs).errors ++ (copyRepo cfg env ys).errors := by
  show (List.foldl (copyFile cfg env) {} (xs ++ ys)).errors = _
  rw [List.foldl_append, copyFold_errors]
  rfl

theorem copyRepo_cons_bytes (cfg : Config) (env : FsEnv) (f : String × Nat)
    (fs : List (String × Nat)) :
    (copyRepo cfg env (f :: fs)).bytes
      = (copyFile cfg env {} f).bytes + (copyRepo cfg env fs).bytes := by
  show (List.foldl (copyFile cfg env) (copyFile cfg env {} f) fs).bytes = _
  rw [copyFold_bytes]

theorem copyRepo_cons_copied (cfg : Config) (env : FsEnv) (f : String × Nat)
    (fs : List (String × Nat)) :
    (copyRepo cfg env (f :: fs)).copied
      = (copyFile cfg env {} f).copied ++ (copyRepo cfg env fs).copied := by
  show (List.foldl (copyFile cfg env) (copyFile cfg env {} f) fs).copied = _
  rw [copyFold_copied]

theorem copyRepo_cons_errors (cfg : Config) (env : FsEnv) (f : String × Nat)
    (fs : List (String × Nat)) :
    (copyRepo cfg env (f :: fs)).errors
      = (copyFile cfg env {} f).errors ++ (copyRepo cfg env fs).errors := by
  show (List.foldl (copyFile cfg env) (copyFile cfg env {} f) fs).errors = _
  rw [copyFold_errors]

theorem zipLoop_abort (repo : String) (writeOk : String → Bool) :
    ∀ (zs ws : List (String × Nat)) (zrel : String) (zsize : Nat),
      (∀ g ∈ zs, relPathRejected g.1 = true ∨ writeOk g.1 = true) →
      relPathRejected zrel = false → writeOk zrel = false →
      zipLoop repo writeOk (zs ++ (zrel, zsize) :: ws) =
        { entries := (zipLoop repo writeOk zs).entries,
          errors := (zipLoop repo writeOk zs).errors, aborted := true } := by
  intro zs
  induction zs with
  | nil =>
      intro ws zrel zsize hall hrj hw
      show zipLoop repo writeOk ((zrel, zsize) :: ws) = _
      simp [zipLoop, hrj, hw]
  | cons g gs ih =>
      intro ws zrel zsize hall hrj hw
      obtain ⟨grel, gsz⟩ := g
      have hrec := ih ws zrel zsize (fun x hx => hall x (List.mem_cons_of_mem _ hx)) hrj hw
      by_cases hgr : relPathRejected grel = true
      · show zipLoop repo writeOk ((grel, gsz) :: (gs ++ (zrel, zsize) :: ws)) = _
        simp [zipLoop, hgr, hrec]
      · have hgr' : relPathRejected grel = false := eq_false_of_ne_true hgr
        have hgw : writeOk grel = true := by
          rcases hall (grel, gsz) (List.mem_cons_self _ _) with h | h
          · exact absurd h hgr
          · exact h
        show zipLoop repo writeOk ((grel, gsz) :: (gs ++ (zrel, zsize) :: ws)) = _
        simp [zipLoop, hgr', hgw, hrec]

/-- C4 (amended): a per-file failure in copy mode (directory creation or the
copy raising) is caught at that file, logged, contributes nothing to the
byte count or the copied list, and the remaining candidates are processed
exactly as without it; in archive mode, however, a failing entry write
escapes to the archive-level handler: the remaining candidates are not
written, the repository reports zero bytes, and only the run's next
repository continues. -/
theorem C4_theorem (cfg : Config) (env : FsEnv) (xs ys : List (String × Nat))
    (rel : String) (size : Nat)
    (hfail : env.mkdirsOk rel = false ∨ env.copyOk rel = false)
    (hns : (env.destExists rel && cfg.skipExisting) = false) :
    (copyRepo cfg env (xs ++ (rel, size) :: ys)).bytes
      = (copyRepo cfg env (xs ++ ys)).bytes ∧
    (copyRepo cfg env (xs ++ (rel, size) :: ys)).copied
      = (copyRepo cfg env (xs ++ ys)).copied ∧
    copyErr rel ∈ (copyRepo cfg env (xs ++ (rel, size) :: ys)).errors ∧
    (∀ (repo : String) (writeOk : String → Bool) (zs ws : List (String × Nat))
       (zrel : String) (zsize archiveSize : Nat),
       (∀ g ∈ zs, relPathRejected g.1 = true ∨ writeOk g.1 = true) →
       relPathRejected zrel = false → writeOk zrel = false →
       zipLoop repo writeOk (zs ++ (zrel, zsize) :: ws) =
         { entries := (zipLoop repo writeOk zs).entries,
           errors := (zipLoop repo writeOk zs).errors, aborted := true } ∧
       zipBytes (zipLoop repo writeOk (zs ++ (zrel, zsize) :: ws)) archiveSize = 0) := by
  obtain ⟨hb0, hc0, he0⟩ := copyFile_fail cfg env rel size hfail hns
  refine ⟨?_, ?_, ?_, ?_⟩
  · rw [copyRepo_append_bytes, copyRepo_cons_bytes, hb0, copyRepo_append_bytes]
    omega
  · rw [copyRepo_append_copied, copyRepo_cons_copied, hc0, copyRepo_append_copied]
    rfl
  · rw [copyRepo_append_errors, copyRepo_cons_errors]
    simp only [List.mem_append]
    exact Or.inr (Or.inl he0)
  · intro repo writeOk zs ws zrel zsize archiveSize hall hrj hw
    have habort := zipLoop_abort repo writeOk zs ws zrel zsize hall hrj hw
    exact ⟨habort, by rw [habort]; rfl⟩

/-- C4 witness: a copy run where the copy of b.txt raises still copies a.txt
and c.txt with their bytes, logs the failure, and the archive abort behavior
holds at the same input. -/
theorem C4_witness :
    (copyRepo {} { destExists := fun _ => false, copyOk := fun r => !(r == "b.txt") }
        [("a.txt", 1), ("b.txt", 2), ("c.txt", 3)]).bytes
      = (copyRepo {} { destExists := fun _ => false, copyOk := fun r => !(r == "b.txt") }
        [("a.txt", 1), ("c.txt", 3)]).bytes ∧
    (copyRepo {} { destExists := fun _ => false, copyOk := fun r => !(r == "b.txt") }
        [("a.txt", 1), ("b.txt", 2), ("c.txt", 3)]).copied
      = (copyRepo {} { destExists := fun _ => false, copyOk := fun r => !(r == "b.txt") }
        [("a.txt", 1), ("c.txt", 3)]).copied ∧
    copyErr "b.txt" ∈ (copyRepo {} { destExists := fun _ => false, copyOk := fun r => !(r == "b.txt") }
        [("a.txt", 1), ("b.txt", 2), ("c.txt", 3)]).errors ∧
    (zipLoop "repo" (fun r => !(r == "b.txt")) [("a.txt", 1), ("b.txt", 2), ("c.txt", 3)] =
      { entries := (zipLoop "repo" (fun r => !(r == "b.txt")) [("a.txt", 1)]).entries,
        errors := (zipLoop "repo" (fun r => !(r == "b.txt")) [("a.txt", 1)]).errors,
        aborted := true } ∧
     zipBytes (zipLoop "repo" (fun r => !(r == "b.txt"))
        [("a.txt", 1), ("b.txt", 2), ("c.txt", 3)]) 999 = 0) := by
  have h := C4_theorem {} { destExists := fun _ => false, copyOk := fun r => !(r == "b.txt") }
    [("a.txt", 1)] [("c.txt", 3)] "b.txt" 2 (Or.inr (by decide)) (by decide)
  exact ⟨h.1, h.2.1, h.2.2.1,
    h.2.2.2 "repo" (fun r => !(r == "b.txt")) [("a.txt", 1)] [("c.txt", 3)] "b.txt" 2 999
      (by decide) (by decide) (by decide)⟩

/-- C4 fails as stated: in archive mode, after the write of b.txt raises,
the remaining candidate c.txt — whose own write would succeed and whose path
is valid — is never written, and the repository reports zero bytes, so the
transfer does not continue with the remaining candidate files. -/
theorem C4_cex :
    relPathRejected "c.txt" = false ∧
    (fun r => !(r == "b.txt")) "c.txt" = true ∧
    (zipLoop "repo" (fun r => !(r == "b.txt"))
      [("a.txt", 1), ("b.txt", 2), ("c.txt", 3)]).entries = ["repo/a.txt"] ∧
    (zipLoop "repo" (fun r => !(r == "b.txt"))
      [("a.txt", 1), ("b.txt", 2), ("c.txt", 3)]).aborted = true ∧
    zipBytes (zipLoop "repo" (fun r => !(r == "b.txt"))
      [("a.txt", 1), ("b.txt", 2), ("c.txt", 3)]) 999 = 0 := by
  refine ⟨by decide, by decide, by decide, by decide, by decide⟩

theorem copyFile_force_inv (cfg : Config) (env : FsEnv) (b1 b2 : Bool)
    (r1 r2 : CopyResult) (f : String × Nat)
    (hb : r1.bytes = r2.bytes) (hc : r1.copied = r2.copied)
    (ho : r1.overwritten = r2.overwritten) (hs : r1.skippedExisting = r2.skippedExisting)
    (he : r1.errors = r2.errors) :
    (copyFile { cfg with force := b1 } env r1 f).bytes
      = (copyFile { cfg with force := b2 } env r2 f).bytes ∧
    (copyFile { cfg with force := b1 } env r1 f).copied
      = (copyFile { cfg with force := b2 } env r2 f).copied ∧
    (copyFile { cfg with force := b1 } env r1 f).overwritten
      = (copyFile { cfg with force := b2 } env r2 f).overwritten ∧
    (copyFile { cfg with force := b1 } env r1 f).skippedExisting
      = (copyFile { cfg with force := b2 } env r2 f).skippedExisting ∧
    (copyFile { cfg with force := b1 } env r1 f).errors
      = (copyFile { cfg with force := b2 } env r2 f).errors := by
  have hsk : ∀ b : Bool, ({ cfg with force := b } : Config).skipExisting = cfg.skipExisting :=
    fun _ => rfl
  unfold copyFile
  rw [hsk b1, hsk b2]
  split_ifs <;> refine ⟨?_, ?_, ?_, ?_, ?_⟩ <;> simp_all

theorem copyFold_force_inv (cfg : Config) (env : FsEnv) (b1 b2 : Bool) :
    ∀ (fs : List (String × Nat)) (r1 r2 : CopyResult),
      r1.bytes = r2.bytes → r1.copied = r2.copied →
      r1.overwritten = r2.overwritten → r1.skippedExisting = r2.skippedExisting →
      r1.errors = r2.errors →
      (List.foldl (copyFile { cfg with force := b1 } env) r1 fs).bytes
        = (List.foldl (copyFile { cfg with force := b2 } env) r2 fs).bytes ∧
      (List.foldl (copyFile { cfg with force := b1 } env) r1 fs).copied
        = (List.foldl (copyFile { cfg with force := b2 } env) r2 fs).copied ∧
      (List.foldl (copyFile { cfg with force := b1 } env) r1 fs).overwritten
        = (List.foldl (copyFile { cfg with force := b2 } env) r2 fs).overwritten ∧
      (List.foldl (copyFile { cfg with force := b1 } env) r1 fs).skippedExisting
        = (List.foldl (copyFile { cfg with force := b2 } env) r2 fs).skippedExisting ∧
      (List.foldl (copyFile { cfg with force := b1 } env) r1 fs).errors
        = (List.foldl (copyFile { cfg with force := b2 } env) r2 fs).errors := by
  intro fs
  induction fs with
  | nil => intro r1 r2 hb hc ho hs he; exact ⟨hb, hc, ho, hs, he⟩
  | cons f fs ih =>
      intro r1 r2 hb hc ho hs he
      obtain ⟨sb, sc, so, ss, se⟩ := copyFile_force_inv cfg env b1 b2 r1 r2 f hb hc ho hs he
      exact ih (copyFile { cfg with force := b1 } env r1 f)
        (copyFile { cfg with force := b2 } env r2 f) sb sc so ss se

theorem copyFile_force_true_warn (cfg : Config) (env : FsEnv) (r : CopyResult)
    (f : String × Nat) (hcfg : cfg.force = true) (hw : r.warnings = []) :
    (copyFile cfg env r f).warnings = [] := by
  unfold copyFile
  split_ifs <;> simp_all

theorem copyFold_force_true_warn (cfg : Config) (env : FsEnv) (hcfg : cfg.force = true) :
    ∀ (fs : List (String × Nat)) (r : CopyResult), r.warnings = [] →
      (List.foldl (copyFile cfg env) r fs).warnings = [] := by
  intro fs
  induction fs with
  | nil => intro r hw; exact hw
  | cons f fs ih =>
      intro r hw
      exact ih (copyFile cfg env r f) (copyFile_force_true_warn cfg env r f hcfg hw)

/-- C7: two copy runs over the same candidates and the same destination
state that differ only in the force flag perform the same writes (same
copied list and bytes) and produce the same overwritten, skipped-existing
and error accounting; force only suppresses the overwrite warnings, and
with force on no overwrite warning is ever printed. -/
theorem C7_theorem (cfg : Config) (env : FsEnv) (files : List (String × Nat)) (b1 b2 : Bool) :
    (copyRepo { cfg with force := b1 } env files).bytes
      = (copyRepo { cfg with force := b2 } env files).bytes ∧
    (copyRepo { cfg with force := b1 } env files).copied
      = (copyRepo { cfg with force := b2 } env files).copied ∧
    (copyRepo { cfg with force := b1 } env files).overwritten
      = (copyRepo { cfg with force := b2 } env files).overwritten ∧
    (copyRepo { cfg with force := b1 } env files).skippedExisting
      = (copyRepo { cfg with force := b2 } env files).skippedExisting ∧
    (copyRepo { cfg with force := b1 } env files).errors
      = (copyRepo { cfg with force := b2 } env files).errors ∧
    (copyRepo { cfg with force := true } env files).warnings = [] := by
  obtain ⟨hb, hc, ho, hs, he⟩ :=
    copyFold_force_inv cfg env b1 b2 files {} {} rfl rfl rfl rfl rfl
  exact ⟨hb, hc, ho, hs, he,
    copyFold_force_true_warn { cfg with force := true } env rfl files {} rfl⟩

/- ===================== Run lemmas ===================== -/

theorem runRepos_dry_writes (cfg : Config) (env : FsEnv) (useZip : Bool) :
    ∀ (repos : List Repo) (s : RunState),
      (List.foldl (runRepoStep cfg env true useZip) s repos).writes = s.writes := by
  intro repos
  induction repos with
  | nil => intro s; rfl
  | cons rp rps ih =>
      intro s
      show (List.foldl (runRepoStep cfg env true useZip)
        (runRepoStep cfg env true useZip s rp) rps).writes = s.writes
      rw [ih (runRepoStep cfg env true useZip s rp)]
      rfl

theorem copyRepo_clean_bytes (cfg : Config) (env : FsEnv)
    (h1 : ∀ p, env.destExists p = false) (h2 : ∀ p, env.mkdirsOk p = true)
    (h3 : ∀ p, env.copyOk p = true) :
    ∀ fs : List (String × Nat), (copyRepo cfg env fs).bytes = (fs.map Prod.snd).sum := by
  intro fs
  induction fs with
  | nil => rfl
  | cons f fs ih =>
      rw [copyRepo_cons_bytes]
      have hone : (copyFile cfg env {} f).bytes = f.2 := by
        unfold copyFile
        simp [h1 f.1, h2 f.1, h3 f.1]
      rw [hone, ih]
      simp

theorem runFold_counts (cfg : Config) (env : FsEnv)
    (h1 : ∀ p, env.destExists p = false) (h2 : ∀ p, env.mkdirsOk p = true)
    (h3 : ∀ p, env.copyOk p = true) :
    ∀ (repos : List Repo) (s1 s2 : RunState),
      s1.totalFilesCopied = s2.totalFilesCopied →
      s1.totalBytesCopied = s2.totalBytesCopied →
      (List.foldl (runRepoStep cfg env true false) s1 repos).totalFilesCopied
        = (List.foldl (runRepoStep cfg env false false) s2 repos).totalFilesCopied ∧
      (List.foldl (runRepoStep cfg env true false) s1 repos).totalBytesCopied
        = (List.foldl (runRepoStep cfg env false false) s2 repos).totalBytesCopied := by
  intro repos
  induction repos with
  | nil => intro s1 s2 hf hb; exact ⟨hf, hb⟩
  | cons rp rps ih =>
      intro s1 s2 hf hb
      have hstepf : (runRepoStep cfg env true false s1 rp).totalFilesCopied
          = (runRepoStep cfg env false false s2 rp).totalFilesCopied := by
        show s1.totalFilesCopied
            + (scanRepo { cfg with repoName := rp.name } rp.files).filesToCopy.length
          = s2.totalFilesCopied
            + (scanRepo { cfg with repoName := rp.name } rp.files).filesToCopy.length
        rw [hf]
      have hstepb : (runRepoStep cfg env true false s1 rp).totalBytesCopied
          = (runRepoStep cfg env false false s2 rp).totalBytesCopied := by
        show s1.totalBytesCopied
            + (((scanRepo { cfg with repoName := rp.name } rp.files).filesToCopy.map
                Prod.snd).sum)
          = s2.totalBytesCopied
            + (copyRepo cfg env
                (scanRepo { cfg with repoName := rp.name } rp.files).filesToCopy).bytes
        rw [hb, copyRepo_clean_bytes cfg env h1 h2 h3]
      exact ih _ _ hstepf hstepb

/-- C5: a dry-run performs no write at the destination (no copied file, no
archive, and main never creates the destination directory), while reporting
the same candidate count as a real copy-mode run, and — when the real run
finds a fresh destination and every per-file operation succeeds — the same
accumulated byte total the real run copies. -/
theorem C5_theorem (cfg : Config) (env : FsEnv) (repos : List Repo) (destAlready : Bool)
    (h1 : ∀ p, env.destExists p = false) (h2 : ∀ p, env.mkdirsOk p = true)
    (h3 : ∀ p, env.copyOk p = true) :
    (runRepos cfg env true false repos).writes = [] ∧
    destDirCreated true destAlready = false ∧
    (runRepos cfg env true false repos).totalFilesCopied
      = (runRepos cfg env false false repos).totalFilesCopied ∧
    (runRepos cfg env true false repos).totalBytesCopied
      = (runRepos cfg env false false repos).totalBytesCopied := by
  obtain ⟨hcnt, hbyt⟩ := runFold_counts cfg env h1 h2 h3 repos {} {} rfl rfl
  exact ⟨runRepos_dry_writes cfg env false repos {}, rfl, hcnt, hbyt⟩

/-- C5 witness: a concrete dry-run over one repository writes nothing and
reports the same count and bytes as the real copy run. -/
theorem C5_witness :
    (runRepos {}
        { destExists := fun _ => false, mkdirsOk := fun _ => true, copyOk := fun _ => true }
        true false [⟨"r1", [⟨"a.py", "a.py", false, 5⟩]⟩]).writes = [] ∧
    destDirCreated true false = false ∧
    (runRepos {}
        { destExists := fun _ => false, mkdirsOk := fun _ => true, copyOk := fun _ => true }
        true false [⟨"r1", [⟨"a.py", "a.py", false, 5⟩]⟩]).totalFilesCopied
      = (runRepos {}
          { destExists := fun _ => false, mkdirsOk := fun _ => true, copyOk := fun _ => true }
          false false [⟨"r1", [⟨"a.py", "a.py", false, 5⟩]⟩]).totalFilesCopied ∧
    (runRepos {}
        { destExists := fun _ => false, mkdirsOk := fun _ => true, copyOk := fun _ => true }
        true false [⟨"r1", [⟨"a.py", "a.py", false, 5⟩]⟩]).totalBytesCopied
      = (runRepos {}
          { destExists := fun _ => false, mkdirsOk := fun _ => true, copyOk := fun _ => true }
          false false [⟨"r1", [⟨"a.py", "a.py", false, 5⟩]⟩]).totalBytesCopied :=
  C5_theorem {}
    { destExists := fun _ => false, mkdirsOk := fun _ => true, copyOk := fun _ => true }
    [⟨"r1", [⟨"a.py", "a.py", false, 5⟩]⟩] false
    (fun _ => rfl) (fun _ => rfl) (fun _ => rfl)

/- ===================== Size parsing lemmas ===================== -/

theorem pyFloatParts_nonneg : ∀ (cs : List Char) (p : Int × Nat),
    pyFloatParts cs = some p → '-' ∉ cs → 0 ≤ p.1 := by
  intro cs p hp hm
  unfold pyFloatParts at hp
  split at hp
  · exact absurd (List.mem_cons_self _ _) hm
  · rw [Option.map_eq_some'] at hp
    obtain ⟨a, _, ha⟩ := hp
    rw [← ha]
    exact Int.natCast_nonneg a.1
  · rw [Option.map_eq_some'] at hp
    obtain ⟨a, _, ha⟩ := hp
    rw [← ha]
    exact Int.natCast_nonneg a.1

theorem pyIntVal_nonneg : ∀ (cs : List Char) (n : Int),
    pyIntVal cs = some n → '-' ∉ cs → 0 ≤ n := by
  intro cs n hp hm
  unfold pyIntVal at hp
  split at hp
  · exact absurd (List.mem_cons_self _ _) hm
  · unfold pyIntDigits at hp
    split at hp
    · rw [Option.some.injEq] at hp
      rw [← hp]
      exact Int.natCast_nonneg _
    · cases hp
  · unfold pyIntDigits at hp
    split at hp
    · rw [Option.some.injEq] at hp
      rw [← hp]
      exact Int.natCast_nonneg _
    · cases hp

theorem scaledTrunc_nonneg {p : Int × Nat} (h : 0 ≤ p.1) (mult : Nat) :
    0 ≤ scaledTrunc p mult :=
  Int.tdiv_nonneg (mul_nonneg h (Int.natCast_nonneg mult))
    (pow_nonneg (by norm_num) _)

/-- C6 (amended): a maximum-file-size option string either parses to an
integer byte count with K, M and G read as binary multiples, or the run
aborts with the usage error; the byte count is non-negative whenever the
normalized (upper-cased, stripped) option string contains no minus sign,
but a leading minus sign is accepted and produces a negative ceiling. -/
theorem C6_theorem (s : String) (n : Int)
    (hp : parseMaxSize s = some n)
    (hm : '-' ∉ trimChars (s.data.map upperChar)) :
    0 ≤ n ∧
    parseMaxSize "2K" = some 2048 ∧
    parseMaxSize "3M" = some 3145728 ∧
    parseMaxSize "1G" = some 1073741824 := by
  refine ⟨?_, by decide, by decide, by decide⟩
  have hm' : '-' ∉ (trimChars (s.data.map upperChar)).dropLast := fun hmem =>
    hm (List.dropLast_subset _ hmem)
  simp only [parseMaxSize] at hp
  split at hp
  · rw [Option.map_eq_some'] at hp
    obtain ⟨p, hps, hn⟩ := hp
    rw [← hn]
    exact scaledTrunc_nonneg (pyFloatParts_nonneg _ p hps hm') _
  · rw [Option.map_eq_some'] at hp
    obtain ⟨p, hps, hn⟩ := hp
    rw [← hn]
    exact scaledTrunc_nonneg (pyFloatParts_nonneg _ p hps hm') _
  · rw [Option.map_eq_some'] at hp
    obtain ⟨p, hps, hn⟩ := hp
    rw [← hn]
    exact scaledTrunc_nonneg (pyFloatParts_nonneg _ p hps hm') _
  · exact pyIntVal_nonneg _ n hp hm

/-- C6 witness: the plain string "10" parses to the non-negative count 10,
and the binary suffixes scale as stated. -/
theorem C6_witness :
    (0 : Int) ≤ 10 ∧
    parseMaxSize "2K" = some 2048 ∧
    parseMaxSize "3M" = some 3145728 ∧
    parseMaxSize "1G" = some 1073741824 := by
  have h := C6_theorem "10" 10 (by decide) (by decide)
  exact h

/-- C6 fails as stated: the option string "-5" parses to the negative byte
count -5 without any usage error, contradicting that every accepted string
yields a non-negative count. -/
theorem C6_cex : parseMaxSize "-5" = some (-5) ∧ (-5 : Int) < 0 :=
  ⟨by decide, by decide⟩

/- ===================== Destination check lemmas ===================== -/

theorem listLead_iff : ∀ (p s : List Char), listLead p s = true ↔ ∃ t, s = p ++ t := by
  intro p
  induction p with
  | nil =>
      intro s
      constructor
      · intro _; exact ⟨s, rfl⟩
      · intro _; rfl
  | cons a as ih =>
      intro s
      cases s with
      | nil =>
          constructor
          · intro h; cases h
          · rintro ⟨t, ht⟩; cases ht
      | cons b bs =>
          simp only [listLead, Bool.and_eq_true, beq_iff_eq, ih]
          constructor
          · rintro ⟨hab, t, ht⟩
            exact ⟨t, by rw [← hab, ht]; rfl⟩
          · rintro ⟨t, ht⟩
            obtain ⟨h1, h2⟩ := List.cons.inj ht
            exact ⟨h1.symm, t, h2⟩

/-- C10: the destination-inside-source validation holds exactly for a
destination equal to the source or extending it past a path separator; a
sibling whose name merely extends the source name, such as /a/repo2 next to
/a/repo, is accepted. -/
theorem C10_theorem (src dst : String) :
    (destInsideSource src dst = true ↔
      (dst = src ∨ ∃ rest : String, dst = src ++ "/" ++ rest)) ∧
    destInsideSource "/a/repo" "/a/repo2" = false ∧
    destInsideSource "/a/repo" "/a/repo" = true ∧
    destInsideSource "/a/repo" "/a/repo/sub" = true := by
  refine ⟨?_, by decide, by decide, by decide⟩
  unfold destInsideSource
  rw [Bool.or_eq_true]
  constructor
  · rintro (h | h)
    · right
      unfold strStartsWith at h
      rw [listLead_iff] at h
      obtain ⟨t, ht⟩ := h
      refine ⟨String.mk t, ?_⟩
      apply String.ext
      rw [String.data_append, ht]
    · left; exact eq_of_beq h
  · rintro (h | h)
    · right; rw [h]; exact beq_self_eq_true src
    · left
      obtain ⟨rest, hr⟩ := h
      unfold strStartsWith
      rw [listLead_iff]
      refine ⟨rest.data, ?_⟩
      rw [hr, String.data_append]
